import Mathlib

/-!
Verification development for the bizleads scheduled-refresh engine.

Shallow embedding of the retention-merge, identity-resolution, run-state and
orchestrator logic of the repository:
  - `src/texas_scheduler.py`    (`TexasScheduledScraper`)
  - `src/alabama_scheduler.py`  (`AlabamaScheduledScraper`)
  - `src/michigan_scheduler.py` (`MichiganScheduledScraper`)
  - `src/multi_state_scheduler.py` (`MultiStateScheduler`)
  - `src/reset_and_refresh.py`  (`deduplicate_file`)

Records are Python dicts in the source; here they are a structure whose
fields are `Option String` (a missing dict key is `none`, so `dict.get(k)`
is the field itself and `dict.get(k, "")` is `Option.getD ""`).  The
`payload` field stands for all remaining dict entries, carried verbatim, so
two records that agree on every modeled field can still be distinguished.
-/

/-- One business record, as built by the generators and consumed by the
merge functions.  Fields modeled: `name`, `entity_number`, `business_id`,
`registration_date` (`"YYYY-MM-DD"`), `scraped_at` (ISO timestamp).
`payload` abstracts the remaining dict keys (state, status, address, ...). -/
structure Biz where
  name : Option String
  entity_number : Option String
  business_id : Option String
  registration_date : Option String
  scraped_at : Option String
  payload : String
  deriving DecidableEq, Repr

/-- `biz.get("registration_date", "")` — sort key used by every merge. -/
def regKey (b : Biz) : String := b.registration_date.getD ""

/-- `biz.get("scraped_at", "")` — sort key used by `deduplicate_file`. -/
def scrKey (b : Biz) : String := b.scraped_at.getD ""

/-- Python string `<=` on two `str` values: code-point lexicographic
order.  This is the same order as Lean's own `String` order, but stated on
the character lists (`String.data`), where it evaluates by kernel
reduction, so concrete instances can be settled by `decide`. -/
def pyLe (a b : String) : Prop := a.data ≤ b.data

/-- Python string `<`, in the same style as `pyLe`. -/
def pyLt (a b : String) : Prop := a.data < b.data

instance : DecidableRel pyLe :=
  fun a b => inferInstanceAs (Decidable (a.data ≤ b.data))

instance : DecidableRel pyLt :=
  fun a b => inferInstanceAs (Decidable (a.data < b.data))

/-- The truthy entity number of a record, if any: models
`en = biz.get('entity_number')` followed by the Python truthiness test
`if en ...` — `none` when the key is missing or the string is empty. -/
def entityKey (b : Biz) : Option String :=
  match b.entity_number with
  | none => none
  | some s => if s = "" then none else some s

/-- The single dedup pass shared verbatim by
`TexasScheduledScraper.merge_businesses` (src/texas_scheduler.py:228-234) and
`AlabamaScheduledScraper._merge` (src/alabama_scheduler.py:176-181):
walk the list with a `seen` set, keeping a record iff its `entity_number`
is truthy and not yet seen. -/
def dedupByEntityNumber : List String → List Biz → List Biz
  | _, [] => []
  | seen, b :: rest =>
    match entityKey b with
    | none => dedupByEntityNumber seen rest
    | some k =>
      if k ∈ seen then dedupByEntityNumber seen rest
      else b :: dedupByEntityNumber (k :: seen) rest

/-- The `seen` set after the dedup pass has walked `l`. -/
def seenAfter (seen : List String) : List Biz → List String
  | [] => seen
  | b :: rest =>
    match entityKey b with
    | none => seenAfter seen rest
    | some k =>
      if k ∈ seen then seenAfter seen rest
      else seenAfter (k :: seen) rest

/-- Ordering used to model Python's stable `list.sort(key=key, reverse=True)`:
`a` goes before `b` iff `key a ≥ key b` (Python string order); among equal keys the original order
is preserved, which is exactly what `List.insertionSort` with this relation
produces (Python's sort is stable, so any stable sort computes it). -/
def byKeyDesc (key : Biz → String) (a b : Biz) : Prop := pyLe (key b) (key a)

instance (key : Biz → String) : DecidableRel (byKeyDesc key) :=
  fun a b => inferInstanceAs (Decidable (pyLe (key b) (key a)))

instance (key : Biz → String) : IsTotal Biz (byKeyDesc key) :=
  ⟨fun a b => le_total (key b).data (key a).data⟩

instance (key : Biz → String) : IsTrans Biz (byKeyDesc key) :=
  ⟨fun _ _ _ h1 h2 => le_trans h2 h1⟩

/-- `businesses.sort(key=lambda x: x.get(k, ''), reverse=True)`. -/
def sortDescBy (key : Biz → String) (l : List Biz) : List Biz :=
  l.insertionSort (byKeyDesc key)

/-- Scheduler configuration (the `CONFIG` dicts / CLI overrides).  A `Nat`
field set to `0` models a missing or falsy value: the only read of
`max_total_businesses` is `self.config.get('max_total_businesses')` guarded
by Python truthiness, under which `None` and `0` behave identically. -/
structure SchedConfig where
  run_interval_hours : Nat
  businesses_per_run : Nat
  max_total_businesses : Nat
  deriving DecidableEq, Repr

/-- `TexasScheduledScraper.merge_businesses` (src/texas_scheduler.py:222-245):
concatenate `existing + new`, dedup by `entity_number` (first occurrence
kept), sort by `registration_date` descending, truncate to
`max_total_businesses` when that is truthy and exceeded. -/
def TexasScheduledScraper.merge_businesses
    (cfg : SchedConfig) (existing new : List Biz) : List Biz :=
  let all_businesses := existing ++ new
  let unique := dedupByEntityNumber [] all_businesses
  let sorted := sortDescBy regKey unique
  if cfg.max_total_businesses ≠ 0 ∧ sorted.length > cfg.max_total_businesses
  then sorted.take cfg.max_total_businesses
  else sorted

/-- `AlabamaScheduledScraper._merge` (src/alabama_scheduler.py:175-187):
line for line the same algorithm as the Texas merge. -/
def AlabamaScheduledScraper._merge
    (cfg : SchedConfig) (existing new : List Biz) : List Biz :=
  let all_businesses := existing ++ new
  let unique := dedupByEntityNumber [] all_businesses
  let sorted := sortDescBy regKey unique
  if cfg.max_total_businesses ≠ 0 ∧ sorted.length > cfg.max_total_businesses
  then sorted.take cfg.max_total_businesses
  else sorted

/-- The Michigan dedup-and-window pass (src/michigan_scheduler.py:230-236):
keep a record iff its `entity_number` is truthy, unseen, and its
`registration_date` is `>= cutoff` (string comparison on `"YYYY-MM-DD"`);
only kept records mark their key as seen. -/
def miDedupPass (cutoff : String) : List String → List Biz → List Biz
  | _, [] => []
  | seen, b :: rest =>
    match entityKey b with
    | none => miDedupPass cutoff seen rest
    | some k =>
      if k ∈ seen ∨ ¬ pyLe cutoff (regKey b) then miDedupPass cutoff seen rest
      else b :: miDedupPass cutoff (k :: seen) rest

/-- `MichiganScheduledScraper._merge` (src/michigan_scheduler.py:227-239).
`cutoff` stands for `(datetime.now() - timedelta(days=30)).strftime("%Y-%m-%d")`,
i.e. now minus the 30-day window, formatted `"YYYY-MM-DD"`.  The method has
`self.config` in scope (passed here as `cfg`) but its body never reads it:
in particular no `max_total_businesses` truncation is applied. -/
def MichiganScheduledScraper._merge
    (cfg : SchedConfig) (cutoff : String) (existing new : List Biz) : List Biz :=
  sortDescBy regKey (miDedupPass cutoff [] (existing ++ new))

/-- The first record of `l` whose truthy entity number is `k`. -/
def findFirstByKey (k : String) (l : List Biz) : Option Biz :=
  l.find? (fun c => decide (entityKey c = some k))

theorem dedupByEntityNumber_append (seen : List String) (l1 l2 : List Biz) :
    dedupByEntityNumber seen (l1 ++ l2)
      = dedupByEntityNumber seen l1 ++ dedupByEntityNumber (seenAfter seen l1) l2 := by
  induction l1 generalizing seen with
  | nil => simp [dedupByEntityNumber, seenAfter]
  | cons c rest ih =>
    cases hc : entityKey c with
    | none => simp [dedupByEntityNumber, seenAfter, hc, ih]
    | some k =>
      by_cases hk : k ∈ seen
      · simp [dedupByEntityNumber, seenAfter, hc, hk, ih]
      · simp [dedupByEntityNumber, seenAfter, hc, hk, ih]

theorem mem_seenAfter_of_mem (seen : List String) (l : List Biz) {k : String}
    (hk : k ∈ seen) : k ∈ seenAfter seen l := by
  induction l generalizing seen with
  | nil => simpa [seenAfter] using hk
  | cons c rest ih =>
    cases hc : entityKey c with
    | none => simpa [seenAfter, hc] using ih seen hk
    | some kc =>
      by_cases hkc : kc ∈ seen
      · simpa [seenAfter, hc, hkc] using ih seen hk
      · simpa [seenAfter, hc, hkc] using ih (kc :: seen) (List.mem_cons_of_mem _ hk)

theorem key_mem_seenAfter (seen : List String) (l : List Biz) {b : Biz} {k : String}
    (hb : b ∈ l) (hkey : entityKey b = some k) : k ∈ seenAfter seen l := by
  induction l generalizing seen with
  | nil => cases hb
  | cons c rest ih =>
    rcases List.mem_cons.mp hb with hbc | hbr
    · subst hbc
      rw [seenAfter, hkey]
      by_cases hk : k ∈ seen
      · simpa [hk] using mem_seenAfter_of_mem seen rest hk
      · simpa [hk] using mem_seenAfter_of_mem (k :: seen) rest (List.mem_cons_self _ _)
    · cases hc : entityKey c with
      | none => simpa [seenAfter, hc] using ih seen hbr
      | some kc =>
        by_cases hkc : kc ∈ seen
        · simpa [seenAfter, hc, hkc] using ih seen hbr
        · simpa [seenAfter, hc, hkc] using ih (kc :: seen) hbr

theorem dedupByEntityNumber_eq_nil (seen : List String) (l : List Biz)
    (h : ∀ b ∈ l, ∀ k, entityKey b = some k → k ∈ seen) :
    dedupByEntityNumber seen l = [] := by
  induction l with
  | nil => rfl
  | cons c rest ih =>
    cases hc : entityKey c with
    | none =>
      simp only [dedupByEntityNumber, hc]
      exact ih fun b hb => h b (List.mem_cons_of_mem _ hb)
    | some k =>
      have hk : k ∈ seen := h c (List.mem_cons_self _ _) k hc
      simp only [dedupByEntityNumber, hc, if_pos hk]
      exact ih fun b hb => h b (List.mem_cons_of_mem _ hb)

theorem dedupByEntityNumber_mem_find :
    ∀ (seen : List String) (l : List Biz) (b : Biz),
      b ∈ dedupByEntityNumber seen l →
      ∃ k, entityKey b = some k ∧ k ∉ seen ∧ findFirstByKey k l = some b := by
  intro seen l
  induction l generalizing seen with
  | nil => intro b hb; simp [dedupByEntityNumber] at hb
  | cons c rest ih =>
    intro b hb
    cases hc : entityKey c with
    | none =>
      rw [dedupByEntityNumber, hc] at hb
      obtain ⟨k, hk, hks, hfind⟩ := ih seen b hb
      refine ⟨k, hk, hks, ?_⟩
      simpa [findFirstByKey, List.find?, hc] using hfind
    | some kc =>
      by_cases hkc : kc ∈ seen
      · simp only [dedupByEntityNumber, hc, if_pos hkc] at hb
        obtain ⟨k, hk, hks, hfind⟩ := ih seen b hb
        have hne : kc ≠ k := fun he => hks (he ▸ hkc)
        refine ⟨k, hk, hks, ?_⟩
        simpa [findFirstByKey, List.find?, hc, hne] using hfind
      · simp only [dedupByEntityNumber, hc, if_neg hkc] at hb
        rcases List.mem_cons.mp hb with hbc | hbr
        · subst hbc
          exact ⟨kc, hc, hkc, by simp [findFirstByKey, List.find?, hc]⟩
        · obtain ⟨k, hk, hks, hfind⟩ := ih (kc :: seen) b hbr
          have hkseen : k ∉ seen := fun hx => hks (List.mem_cons_of_mem _ hx)
          have hne : kc ≠ k := fun he => hks (he ▸ List.mem_cons_self _ _)
          refine ⟨k, hk, hkseen, ?_⟩
          simpa [findFirstByKey, List.find?, hc, hne] using hfind

theorem miDedupPass_mem (cutoff : String) :
    ∀ (seen : List String) (l : List Biz) (b : Biz),
      b ∈ miDedupPass cutoff seen l →
      ∃ k, entityKey b = some k ∧ k ∉ seen ∧ pyLe cutoff (regKey b) := by
  intro seen l
  induction l generalizing seen with
  | nil => intro b hb; simp [miDedupPass] at hb
  | cons c rest ih =>
    intro b hb
    cases hc : entityKey c with
    | none =>
      simp only [miDedupPass, hc] at hb
      exact ih seen b hb
    | some kc =>
      by_cases hcond : kc ∈ seen ∨ ¬ pyLe cutoff (regKey c)
      · simp only [miDedupPass, hc, if_pos hcond] at hb
        exact ih seen b hb
      · simp only [miDedupPass, hc, if_neg hcond] at hb
        push_neg at hcond
        rcases List.mem_cons.mp hb with hbc | hbr
        · subst hbc
          exact ⟨kc, hc, hcond.1, hcond.2⟩
        · obtain ⟨k, hk, hks, hcut⟩ := ih (kc :: seen) b hbr
          exact ⟨k, hk, fun hx => hks (List.mem_cons_of_mem _ hx), hcut⟩

theorem miDedupPass_pairwise (cutoff : String) (seen : List String) (l : List Biz) :
    (miDedupPass cutoff seen l).Pairwise (fun a b => entityKey a ≠ entityKey b) := by
  induction l generalizing seen with
  | nil => exact List.Pairwise.nil
  | cons c rest ih =>
    cases hc : entityKey c with
    | none => simp only [miDedupPass, hc]; exact ih seen
    | some kc =>
      by_cases hcond : kc ∈ seen ∨ ¬ pyLe cutoff (regKey c)
      · simp only [miDedupPass, hc, if_pos hcond]; exact ih seen
      · simp only [miDedupPass, hc, if_neg hcond]
        refine List.Pairwise.cons ?_ (ih (kc :: seen))
        intro d hd
        obtain ⟨kd, hkd, hkds, _⟩ := miDedupPass_mem cutoff (kc :: seen) rest d hd
        rw [hc, hkd]
        intro he
        exact hkds (List.mem_cons.mpr (Or.inl (Option.some.inj he).symm))

theorem dedupByEntityNumber_pairwise (seen : List String) (l : List Biz) :
    (dedupByEntityNumber seen l).Pairwise (fun a b => entityKey a ≠ entityKey b) := by
  induction l generalizing seen with
  | nil => exact List.Pairwise.nil
  | cons c rest ih =>
    cases hc : entityKey c with
    | none => rw [dedupByEntityNumber, hc]; exact ih seen
    | some kc =>
      by_cases hkc : kc ∈ seen
      · simp only [dedupByEntityNumber, hc, if_pos hkc]; exact ih seen
      · simp only [dedupByEntityNumber, hc, if_neg hkc]
        refine List.Pairwise.cons ?_ (ih (kc :: seen))
        intro d hd
        obtain ⟨kd, hkd, hkds, _⟩ := dedupByEntityNumber_mem_find (kc :: seen) rest d hd
        rw [hc, hkd]
        intro he
        exact hkds (List.mem_cons.mpr (Or.inl (Option.some.inj he).symm))

theorem mem_sortDescBy {key : Biz → String} {l : List Biz} {b : Biz} :
    b ∈ sortDescBy key l ↔ b ∈ l :=
  List.mem_insertionSort (byKeyDesc key)

theorem pairwise_sortDescBy {R : Biz → Biz → Prop} (hsymm : Symmetric R)
    (key : Biz → String) {l : List Biz} (h : l.Pairwise R) :
    (sortDescBy key l).Pairwise R :=
  ((List.perm_insertionSort (byKeyDesc key) l).pairwise_iff
    (fun {_ _} hxy => hsymm hxy)).mpr h

theorem sorted_sortDescBy (key : Biz → String) (l : List Biz) :
    (sortDescBy key l).Sorted (byKeyDesc key) :=
  List.sorted_insertionSort (byKeyDesc key) l

theorem alabama_merge_eq_texas_merge :
    AlabamaScheduledScraper._merge = TexasScheduledScraper.merge_businesses := rfl

theorem texas_merge_mem_dedup (cfg : SchedConfig) (existing new : List Biz) {b : Biz}
    (hb : b ∈ TexasScheduledScraper.merge_businesses cfg existing new) :
    b ∈ dedupByEntityNumber [] (existing ++ new) := by
  simp only [TexasScheduledScraper.merge_businesses] at hb
  split at hb
  · exact mem_sortDescBy.mp ((List.take_sublist _ _).subset hb)
  · exact mem_sortDescBy.mp hb

/-- Python `a or b` on a possibly-missing string `a` (`dict.get` result):
the first operand if truthy (present and non-empty), else the second. -/
def pyOrStr (x : Option String) (y : String) : String :=
  match x with
  | none => y
  | some s => if s = "" then y else s

/-- The dedup key of `deduplicate_file` (src/reset_and_refresh.py:184):
`biz.get("entity_number") or biz.get("business_id") or biz.get("name", "")`. -/
def dedupFileKey (b : Biz) : String :=
  pyOrStr b.entity_number (pyOrStr b.business_id (b.name.getD ""))

/-- The seen-set pass of `deduplicate_file` (src/reset_and_refresh.py:182-187):
keep a record iff its `dedupFileKey` is truthy (non-empty) and unseen. -/
def dedupFilePass : List String → List Biz → List Biz
  | _, [] => []
  | seen, b :: rest =>
    if dedupFileKey b ≠ "" ∧ dedupFileKey b ∉ seen
    then b :: dedupFilePass (dedupFileKey b :: seen) rest
    else dedupFilePass seen rest

/-- The pure core of `deduplicate_file` (src/reset_and_refresh.py:160-197),
acting on the parsed record list: sort by `scraped_at` descending (newest
scraped first), run the seen-set pass, re-sort by `registration_date`
descending. -/
def deduplicate_file (l : List Biz) : List Biz :=
  sortDescBy regKey (dedupFilePass [] (sortDescBy scrKey l))

/-- Modelled from the spec (§4.1, Identity Resolver), for comparison with
the code's `dedupFileKey`: "`DedupKey(r)` returns `r.naturalKey` if
non-empty, else `r.fallbackKey` if non-empty, else a normalized lowercase
`r.displayName`" — `entity_number` is the natural key, `business_id` the
fallback key, `name` the display name.  The lowercase normalization is
written as a per-character map (the value of `String.toLower`) so that it
evaluates by kernel reduction. -/
def specDedupKey (b : Biz) : String :=
  if b.entity_number.getD "" ≠ "" then b.entity_number.getD ""
  else if b.business_id.getD "" ≠ "" then b.business_id.getD ""
  else String.mk ((b.name.getD "").data.map Char.toLower)

theorem dedupFilePass_mem :
    ∀ (seen : List String) (l : List Biz) (b : Biz),
      b ∈ dedupFilePass seen l → dedupFileKey b ≠ "" ∧ dedupFileKey b ∉ seen := by
  intro seen l
  induction l generalizing seen with
  | nil => intro b hb; simp [dedupFilePass] at hb
  | cons c rest ih =>
    intro b hb
    by_cases hcond : dedupFileKey c ≠ "" ∧ dedupFileKey c ∉ seen
    · simp only [dedupFilePass, if_pos hcond] at hb
      rcases List.mem_cons.mp hb with hbc | hbr
      · subst hbc; exact hcond
      · obtain ⟨hne, hns⟩ := ih (dedupFileKey c :: seen) b hbr
        exact ⟨hne, fun hx => hns (List.mem_cons_of_mem _ hx)⟩
    · simp only [dedupFilePass, if_neg hcond] at hb
      exact ih seen b hb

theorem dedupFilePass_pairwise (seen : List String) (l : List Biz) :
    (dedupFilePass seen l).Pairwise (fun a b => dedupFileKey a ≠ dedupFileKey b) := by
  induction l generalizing seen with
  | nil => exact List.Pairwise.nil
  | cons c rest ih =>
    by_cases hcond : dedupFileKey c ≠ "" ∧ dedupFileKey c ∉ seen
    · simp only [dedupFilePass, if_pos hcond]
      refine List.Pairwise.cons ?_ (ih (dedupFileKey c :: seen))
      intro d hd he
      exact (dedupFilePass_mem _ rest d hd).2 (List.mem_cons.mpr (Or.inl he.symm))
    · simp only [dedupFilePass, if_neg hcond]
      exact ih seen

/-- Per-source scheduler run state, the `self.state` dict built by
`load_state` (src/texas_scheduler.py:60-65).  Timestamps are rationals
(seconds), standing for the parsed ISO strings the code stores. -/
structure RunState where
  last_run : Option ℚ
  run_count : Nat
  total_businesses_generated : Nat
  business_ids : List String
  deriving DecidableEq, Repr

/-- What reading the state file can yield: the file is absent, it exists
but `open`/`json.load` raises (unreadable or corrupt JSON), or it parses. -/
inductive StateFileRead where
  | missing
  | unreadableOrCorrupt
  | parsed (st : RunState)
  deriving DecidableEq, Repr

/-- `TexasScheduledScraper.load_state` (src/texas_scheduler.py:49-65): a
missing file skips the read, an exception is caught and logged as a
warning; both paths fall through to the default zero state. -/
def TexasScheduledScraper.load_state : StateFileRead → RunState
  | .missing => ⟨none, 0, 0, []⟩
  | .unreadableOrCorrupt => ⟨none, 0, 0, []⟩
  | .parsed st => st

/-- `TexasScheduledScraper.should_run` (src/texas_scheduler.py:79-87): due
iff never run, or `(now - last_run).total_seconds() / 3600` reaches the
configured interval. -/
def TexasScheduledScraper.should_run (cfg : SchedConfig) (st : RunState) (now : ℚ) : Bool :=
  match st.last_run with
  | none => true
  | some last_run =>
    decide ((now - last_run) / 3600 ≥ (cfg.run_interval_hours : ℚ))

/-- One entry of `CONFIG["states"]` (src/multi_state_scheduler.py:26-270). -/
structure StateScraperConfig where
  script : String
  enabled : Bool
  delay_minutes : Nat
  deriving DecidableEq, Repr

/-- The three ways the `subprocess.run` call inside `run_state_scraper`
can end (src/multi_state_scheduler.py:299-314): it completes with some
exit code, it hits the 300-second timeout (`subprocess.TimeoutExpired`),
or it raises some other exception. -/
inductive SubprocessOutcome where
  | completed (returncode : Int)
  | timedOut
  | raised
  deriving DecidableEq, Repr

/-- `MultiStateScheduler.run_state_scraper` (src/multi_state_scheduler.py:287-314):
a source disabled in config returns `True` immediately, before the stagger
sleep and before the subprocess is launched; otherwise the subprocess
outcome maps to `True` exactly when the exit code is 0, with timeouts and
exceptions caught and mapped to `False` — nothing propagates. -/
def MultiStateScheduler.run_state_scraper
    (state_config : StateScraperConfig) (outcome : SubprocessOutcome) : Bool :=
  if state_config.enabled = false then true
  else
    match outcome with
    | .completed returncode => returncode == 0
    | .timedOut => false
    | .raised => false

/-- `MultiStateScheduler.run_once` (src/multi_state_scheduler.py:316-339):
iterate over all configured sources in declaration order, recording
`results[state_name] = run_state_scraper(...)` for every one of them; each
source is paired here with the outcome its subprocess would produce. -/
def MultiStateScheduler.run_once
    (sources : List (String × StateScraperConfig × SubprocessOutcome)) :
    List (String × Bool) :=
  sources.map fun s => (s.1, MultiStateScheduler.run_state_scraper s.2.1 s.2.2)

/-- Sample existing-side record: entity number `32000000001`, scraped on
2024-01-05. -/
def bizOld : Biz :=
  ⟨some "Lone Star Tech Solutions LLC", some "32000000001", some "id001",
   some "2024-01-05", some "2024-01-05T08:00:00", "existing"⟩

/-- Sample incoming-side record: the *same* entity number as `bizOld` but a
strictly later `scraped_at` (a fresher snapshot of the same entity). -/
def bizNew : Biz :=
  ⟨some "Lone Star Tech Solutions LLC", some "32000000001", some "id001",
   some "2024-01-05", some "2024-06-01T08:00:00", "incoming"⟩

/-- Sample record with no `entity_number` key at all. -/
def bizNoEn : Biz :=
  ⟨some "No Entity LLC", none, some "id002",
   some "2024-03-01", some "2024-03-01T08:00:00", "keyless"⟩

/-- C1 is false on the code: the Texas and Alabama merges never sort by
`scraped_at` — the dedup pass keeps the *first* occurrence of an entity
number in `existing + new`, so when an existing record and a fresher
incoming record share a dedup key, the output keeps the existing (older
`observedAt`) snapshot and drops the newer one. -/
theorem merge_freshness_counterexample :
    entityKey bizOld = entityKey bizNew ∧
    pyLt (scrKey bizOld) (scrKey bizNew) ∧
    bizOld ≠ bizNew ∧
    TexasScheduledScraper.merge_businesses ⟨24, 25, 500⟩ [bizOld] [bizNew]
      = [bizOld] ∧
    AlabamaScheduledScraper._merge ⟨24, 20, 500⟩ [bizOld] [bizNew]
      = [bizOld] := by
  decide

/-- C1 (amended): in the Texas and Alabama merges, the record surviving for
a dedup key is the **first** record bearing that key in the concatenation
`existing ++ incoming` — on a conflict the existing record wins —
irrespective of the records' `scraped_at` (observedAt) values. -/
theorem merge_survivor_is_first_occurrence
    (cfg : SchedConfig) (existing new : List Biz) (b : Biz) (k : String)
    (hk : entityKey b = some k) :
    (b ∈ TexasScheduledScraper.merge_businesses cfg existing new →
      findFirstByKey k (existing ++ new) = some b) ∧
    (b ∈ AlabamaScheduledScraper._merge cfg existing new →
      findFirstByKey k (existing ++ new) = some b) := by
  have htx : b ∈ TexasScheduledScraper.merge_businesses cfg existing new →
      findFirstByKey k (existing ++ new) = some b := by
    intro hb
    obtain ⟨k2, hk2, _, hfind⟩ :=
      dedupByEntityNumber_mem_find [] (existing ++ new) b
        (texas_merge_mem_dedup cfg existing new hb)
    cases Option.some.inj (hk.symm.trans hk2)
    exact hfind
  refine ⟨htx, ?_⟩
  rw [alabama_merge_eq_texas_merge]
  exact htx

theorem merge_survivor_is_first_occurrence_witness :
    findFirstByKey "32000000001" ([bizOld] ++ [bizNew]) = some bizOld :=
  (merge_survivor_is_first_occurrence ⟨24, 25, 500⟩ [bizOld] [bizNew] bizOld
    "32000000001" (by decide)).1 (by decide)

/-- C2: dedup totality — for every existing and incoming input lists, no
two records in the output of the Texas, Alabama or Michigan merge share a
dedup key (the truthy `entity_number`); at most one record survives per
key. -/
theorem merge_dedup_totality (cfg : SchedConfig) (cutoff : String)
    (existing new : List Biz) :
    (TexasScheduledScraper.merge_businesses cfg existing new).Pairwise
      (fun a b => entityKey a ≠ entityKey b) ∧
    (AlabamaScheduledScraper._merge cfg existing new).Pairwise
      (fun a b => entityKey a ≠ entityKey b) ∧
    (MichiganScheduledScraper._merge cfg cutoff existing new).Pairwise
      (fun a b => entityKey a ≠ entityKey b) := by
  have hsymm : Symmetric fun a b : Biz => entityKey a ≠ entityKey b :=
    fun a b h he => h he.symm
  have htx : (TexasScheduledScraper.merge_businesses cfg existing new).Pairwise
      (fun a b => entityKey a ≠ entityKey b) := by
    simp only [TexasScheduledScraper.merge_businesses]
    split
    · exact List.Pairwise.sublist (List.take_sublist _ _)
        (pairwise_sortDescBy hsymm regKey
          (dedupByEntityNumber_pairwise [] (existing ++ new)))
    · exact pairwise_sortDescBy hsymm regKey
        (dedupByEntityNumber_pairwise [] (existing ++ new))
  refine ⟨htx, ?_, ?_⟩
  · rw [alabama_merge_eq_texas_merge]
    exact htx
  · exact pairwise_sortDescBy hsymm regKey
      (miDedupPass_pairwise cutoff [] (existing ++ new))

/-- C9: idempotent merge — merging a record set with the empty incoming
list produces exactly the same output as merging it with itself: the
second copy of `S` contributes nothing, every one of its keys having been
seen (or dropped as non-truthy) during the first copy. -/
theorem merge_idempotent (cfg : SchedConfig) (S : List Biz) :
    TexasScheduledScraper.merge_businesses cfg S []
      = TexasScheduledScraper.merge_businesses cfg S S := by
  have hd : dedupByEntityNumber [] (S ++ S) = dedupByEntityNumber [] (S ++ []) := by
    rw [dedupByEntityNumber_append,
        dedupByEntityNumber_eq_nil (seenAfter [] S) S
          (fun b hb k hk => key_mem_seenAfter [] S hb hk),
        List.append_nil, List.append_nil]
  simp only [TexasScheduledScraper.merge_businesses, hd]

/-- C10 (implicit): any record — existing or incoming — whose
`entity_number` is missing or empty (falsy) is dropped from the Texas and
Alabama merge output entirely; no fallback key is consulted, so the
retained set only ever contains records with a truthy `entity_number`. -/
theorem merge_requires_entity_number
    (cfg : SchedConfig) (existing new : List Biz) (b : Biz) :
    (b ∈ TexasScheduledScraper.merge_businesses cfg existing new →
      entityKey b ≠ none) ∧
    (b ∈ AlabamaScheduledScraper._merge cfg existing new →
      entityKey b ≠ none) ∧
    (entityKey b = none →
      b ∉ TexasScheduledScraper.merge_businesses cfg existing new ∧
      b ∉ AlabamaScheduledScraper._merge cfg existing new) := by
  have htx : b ∈ TexasScheduledScraper.merge_businesses cfg existing new →
      entityKey b ≠ none := by
    intro hb
    obtain ⟨k, hk, _, _⟩ := dedupByEntityNumber_mem_find [] (existing ++ new) b
      (texas_merge_mem_dedup cfg existing new hb)
    simp [hk]
  refine ⟨htx, ?_, ?_⟩
  · rw [alabama_merge_eq_texas_merge]
    exact htx
  · intro hnone
    constructor
    · intro hb
      exact htx hb hnone
    · rw [alabama_merge_eq_texas_merge]
      intro hb
      exact htx hb hnone

theorem merge_requires_entity_number_witness :
    entityKey bizOld ≠ none ∧
    bizNoEn ∉ TexasScheduledScraper.merge_businesses ⟨24, 25, 500⟩ [bizNoEn] [] :=
  ⟨(merge_requires_entity_number ⟨24, 25, 500⟩ [bizOld] [] bizOld).1 (by decide),
   ((merge_requires_entity_number ⟨24, 25, 500⟩ [bizNoEn] [] bizNoEn).2.2
      (by decide)).1⟩

/-- Sample Michigan-style record registered 2024-06-10. -/
def miRec1 : Biz :=
  ⟨some "Detroit Solutions LLC", some "100-000-001", some "mid001",
   some "2024-06-10", some "2024-06-10T08:00:00", "mi-a"⟩

/-- Sample Michigan-style record registered 2024-06-11, distinct entity
number from `miRec1`. -/
def miRec2 : Biz :=
  ⟨some "Lansing Group Inc", some "100-000-002", some "mid002",
   some "2024-06-11", some "2024-06-11T08:00:00", "mi-b"⟩

/-- In a list sorted descending by `key`, everything kept by `take m`
dominates everything removed by `drop m`. -/
theorem sorted_take_drop (key : Biz → String) (l : List Biz) (m : Nat)
    (hl : l.Pairwise (byKeyDesc key)) :
    ∀ b ∈ l.take m, ∀ c ∈ l.drop m, pyLe (key c) (key b) := by
  have hsplit : (l.take m ++ l.drop m).Pairwise (byKeyDesc key) := by
    rw [List.take_append_drop]
    exact hl
  intro b hb c hc
  exact (List.pairwise_append.mp hsplit).2.2 b hb c hc

/-- C3 is false on the code for the Michigan merge:
`MichiganScheduledScraper._merge` never reads `max_total_businesses`, so
with the cap configured to 1 (reachable via the `--max-total 1` CLI flag
that `main()` writes into the config) a merge of two distinct in-window
records returns both — the output exceeds the configured `MaxSize`. -/
theorem merge_cap_counterexample :
    (SchedConfig.mk 24 300 1).max_total_businesses = 1 ∧
    (MichiganScheduledScraper._merge ⟨24, 300, 1⟩ "2024-06-01"
        [miRec1] [miRec2]).length = 2 := by
  decide

/-- C3 (amended): the Texas and Alabama merges respect the cap — when
`max_total_businesses` is truthy the output length never exceeds it and
every kept record's `registration_date` is ≥ that of every record the
truncation dropped.  The Michigan merge applies no cap at all: its output
is independent of the configuration. -/
theorem merge_cap_respected (cfg : SchedConfig) (existing new : List Biz)
    (hcap : cfg.max_total_businesses ≠ 0) :
    (TexasScheduledScraper.merge_businesses cfg existing new).length
        ≤ cfg.max_total_businesses ∧
    (AlabamaScheduledScraper._merge cfg existing new).length
        ≤ cfg.max_total_businesses ∧
    (∀ b ∈ TexasScheduledScraper.merge_businesses cfg existing new,
      ∀ c ∈ (sortDescBy regKey (dedupByEntityNumber [] (existing ++ new))).drop
          cfg.max_total_businesses,
        pyLe (regKey c) (regKey b)) ∧
    (∀ (cutoff : String) (cfgB : SchedConfig),
      MichiganScheduledScraper._merge cfg cutoff existing new
        = MichiganScheduledScraper._merge cfgB cutoff existing new) := by
  have htxlen : (TexasScheduledScraper.merge_businesses cfg existing new).length
      ≤ cfg.max_total_businesses := by
    simp only [TexasScheduledScraper.merge_businesses]
    split
    · rw [List.length_take]
      exact Nat.min_le_left _ _
    · next hcond =>
      exact Nat.not_lt.mp fun hgt => hcond ⟨hcap, hgt⟩
  refine ⟨htxlen, ?_, ?_, ?_⟩
  · rw [alabama_merge_eq_texas_merge]
    exact htxlen
  · intro b hb c hc
    simp only [TexasScheduledScraper.merge_businesses] at hb
    split at hb
    · exact sorted_take_drop regKey _ _ (sorted_sortDescBy regKey _) b hb c hc
    · next hcond =>
      have hle : (sortDescBy regKey
          (dedupByEntityNumber [] (existing ++ new))).length
          ≤ cfg.max_total_businesses :=
        Nat.not_lt.mp fun hgt => hcond ⟨hcap, hgt⟩
      rw [List.drop_eq_nil_of_le hle] at hc
      cases hc
  · intro cutoff cfgB
    rfl

theorem merge_cap_respected_witness :
    (TexasScheduledScraper.merge_businesses ⟨24, 25, 1⟩
        [miRec1, miRec2] []).length ≤ 1 ∧
    pyLe (regKey miRec1) (regKey miRec2) :=
  ⟨(merge_cap_respected ⟨24, 25, 1⟩ [miRec1, miRec2] [] (by decide)).1,
   (merge_cap_respected ⟨24, 25, 1⟩ [miRec1, miRec2] [] (by decide)).2.2.1
     miRec2 (by decide) miRec1 (by decide)⟩

/-- C4: window monotonicity — whatever the merge history that produced the
existing set, no record in the Michigan merge output has a
`registration_date` older than the 30-day cutoff (`now - 30 days`,
compared as `"YYYY-MM-DD"` strings exactly as the code does). -/
theorem michigan_window_monotonicity
    (cfg : SchedConfig) (cutoff : String) (existing new : List Biz) (b : Biz)
    (hb : b ∈ MichiganScheduledScraper._merge cfg cutoff existing new) :
    pyLe cutoff (regKey b) := by
  simp only [MichiganScheduledScraper._merge] at hb
  obtain ⟨k, _, _, hcut⟩ :=
    miDedupPass_mem cutoff [] (existing ++ new) b (mem_sortDescBy.mp hb)
  exact hcut

theorem michigan_window_monotonicity_witness :
    pyLe "2024-06-01" (regKey miRec1) :=
  michigan_window_monotonicity ⟨24, 300, 500⟩ "2024-06-01" [miRec1] [] miRec1
    (by decide)

/-- Sample record with no identifiers, name `"ACME LLC"` (upper case). -/
def bizUpper : Biz :=
  ⟨some "ACME LLC", none, none, some "2024-06-01",
   some "2024-06-01T08:00:00", "upper"⟩

/-- Sample record with no identifiers, name `"acme llc"` (lower case). -/
def bizLower : Biz :=
  ⟨some "acme llc", none, none, some "2024-06-02",
   some "2024-06-01T09:00:00", "lower"⟩

/-- Sample record with no identifiers and no name at all. -/
def bizBlank : Biz :=
  ⟨none, none, none, some "2024-06-03", some "2024-06-03T08:00:00", "blank"⟩

theorem pyOrStr_of_entityKey_none {b : Biz} (h : entityKey b = none)
    (y : String) : pyOrStr b.entity_number y = y := by
  cases hbe : b.entity_number with
  | none => simp [pyOrStr]
  | some t =>
    simp only [entityKey, hbe] at h
    by_cases ht : t = ""
    · simp [pyOrStr, ht]
    · simp [ht] at h

/-- C5 is false on the code in two ways: (1) the third key tier of
`deduplicate_file` uses the record's name **verbatim** — no lowercase
normalization — so two records whose names differ only in case get
different code keys and are both kept, though the spec's key is identical
for them; (2) the key is not total: a record whose three tiers are all
falsy gets the empty-string key and is silently dropped, so not every
record is dedup-comparable. -/
theorem dedup_key_policy_counterexample :
    specDedupKey bizUpper = specDedupKey bizLower ∧
    dedupFileKey bizUpper ≠ dedupFileKey bizLower ∧
    deduplicate_file [bizUpper, bizLower] = [bizLower, bizUpper] ∧
    dedupFileKey bizBlank = "" ∧
    deduplicate_file [bizBlank] = [] := by
  decide

/-- C5 (amended): the dedup key of `deduplicate_file` is `entity_number`
if truthy, else `business_id` if truthy, else the **verbatim** `name` (no
lowercase normalization); it is deterministic but may be empty, and a
record with an empty key is dropped from the output rather than
dedup-compared; every surviving record carries a non-empty key and no two
surviving records share one. -/
theorem dedup_key_policy_amended (b : Biz) (l : List Biz) (s : String) :
    (b.entity_number = some s → s ≠ "" → dedupFileKey b = s) ∧
    (entityKey b = none → b.business_id = some s → s ≠ "" →
      dedupFileKey b = s) ∧
    (entityKey b = none → (b.business_id = none ∨ b.business_id = some "") →
      dedupFileKey b = b.name.getD "") ∧
    (b ∈ deduplicate_file l → dedupFileKey b ≠ "") ∧
    (dedupFileKey b = "" → b ∉ deduplicate_file l) ∧
    (deduplicate_file l).Pairwise
      (fun x y => dedupFileKey x ≠ dedupFileKey y) := by
  have hmem : b ∈ deduplicate_file l → dedupFileKey b ≠ "" := by
    intro hb
    exact (dedupFilePass_mem [] (sortDescBy scrKey l) b
      (mem_sortDescBy.mp hb)).1
  refine ⟨?_, ?_, ?_, hmem, ?_, ?_⟩
  · intro hen hs
    simp [dedupFileKey, pyOrStr, hen, hs]
  · intro hek hbid hs
    rw [dedupFileKey, pyOrStr_of_entityKey_none hek]
    simp [pyOrStr, hbid, hs]
  · intro hek hbid
    rw [dedupFileKey, pyOrStr_of_entityKey_none hek]
    rcases hbid with hbid | hbid
    · simp [pyOrStr, hbid]
    · simp [pyOrStr, hbid]
  · intro hkey hb
    exact hmem hb hkey
  · have hsymm : Symmetric fun x y : Biz => dedupFileKey x ≠ dedupFileKey y :=
      fun x y h he => h he.symm
    exact pairwise_sortDescBy hsymm regKey
      (dedupFilePass_pairwise [] (sortDescBy scrKey l))

theorem dedup_key_policy_amended_witness :
    dedupFileKey miRec1 = "100-000-001" ∧
    dedupFileKey bizUpper = bizUpper.name.getD "" ∧
    bizBlank ∉ deduplicate_file [bizBlank] :=
  ⟨(dedup_key_policy_amended miRec1 [] "100-000-001").1 rfl (by decide),
   (dedup_key_policy_amended bizUpper [] "x").2.2.1 (by decide) (Or.inl rfl),
   (dedup_key_policy_amended bizBlank [bizBlank] "x").2.2.2.2.1 (by decide)⟩

/-- C6: corruption-tolerant state load — a missing file and an unreadable
or corrupt one both load as the fresh zero-value state (`last_run = None`,
`run_count = 0`, `total_businesses_generated = 0`, empty id set) without
raising, and the subsequent due-check on the loaded state returns `True`
(first run, due) for every current time and every configuration. -/
theorem load_state_corruption_tolerant :
    TexasScheduledScraper.load_state .missing = ⟨none, 0, 0, []⟩ ∧
    TexasScheduledScraper.load_state .unreadableOrCorrupt = ⟨none, 0, 0, []⟩ ∧
    (∀ (cfg : SchedConfig) (now : ℚ),
      TexasScheduledScraper.should_run cfg
        (TexasScheduledScraper.load_state .missing) now = true) ∧
    (∀ (cfg : SchedConfig) (now : ℚ),
      TexasScheduledScraper.should_run cfg
        (TexasScheduledScraper.load_state .unreadableOrCorrupt) now = true) :=
  ⟨rfl, rfl, fun _ _ => rfl, fun _ _ => rfl⟩

/-- C7: failure isolation — a source whose subprocess fails (non-zero
exit, timeout, or exception) contributes exactly one `False` (Failed)
entry to the cycle report, nothing propagates, and every other source's
entry is exactly what it would have been on its own: the report over
`pre ++ failing :: post` decomposes entrywise, and it always has one
entry per source. -/
theorem run_once_failure_isolation
    (pre post : List (String × StateScraperConfig × SubprocessOutcome))
    (nm : String) (cfgS : StateScraperConfig) (o : SubprocessOutcome)
    (hfail : MultiStateScheduler.run_state_scraper cfgS o = false) :
    MultiStateScheduler.run_once (pre ++ (nm, cfgS, o) :: post)
      = MultiStateScheduler.run_once pre
        ++ (nm, false) :: MultiStateScheduler.run_once post ∧
    (MultiStateScheduler.run_once (pre ++ (nm, cfgS, o) :: post)).length
      = pre.length + 1 + post.length := by
  constructor
  · simp [MultiStateScheduler.run_once, hfail]
  · simp [MultiStateScheduler.run_once]
    omega

theorem run_once_failure_isolation_witness :
    MultiStateScheduler.run_once
        [("alabama", ⟨"alabama_scheduler.py", true, 5⟩, .completed 0),
         ("alaska", ⟨"alaska_scheduler.py", true, 10⟩, .timedOut),
         ("arizona", ⟨"arizona_scheduler.py", true, 15⟩, .completed 0)]
      = MultiStateScheduler.run_once
          [("alabama", ⟨"alabama_scheduler.py", true, 5⟩, .completed 0)]
        ++ ("alaska", false)
          :: MultiStateScheduler.run_once
              [("arizona", ⟨"arizona_scheduler.py", true, 15⟩, .completed 0)] :=
  (run_once_failure_isolation
    [("alabama", ⟨"alabama_scheduler.py", true, 5⟩, .completed 0)]
    [("arizona", ⟨"arizona_scheduler.py", true, 15⟩, .completed 0)]
    "alaska" ⟨"alaska_scheduler.py", true, 10⟩ .timedOut (by decide)).1

/-- `CONFIG["states"]["alaska"]` with `enabled` flipped off. -/
def disabledAlaska : StateScraperConfig := ⟨"alaska_scheduler.py", false, 5⟩

/-- `CONFIG["states"]["arizona"]` as configured (enabled). -/
def enabledArizona : StateScraperConfig := ⟨"arizona_scheduler.py", true, 10⟩

/-- C8 is false on the code: a disabled source's report entry is `True` —
the very value a successful source reports — so the cycle report has no
`Disabled` status distinct from `Ok`: a cycle over a disabled source and a
succeeding one reports both identically. -/
theorem disabled_source_report_counterexample :
    MultiStateScheduler.run_state_scraper disabledAlaska .raised = true ∧
    MultiStateScheduler.run_state_scraper enabledArizona (.completed 0)
      = true ∧
    MultiStateScheduler.run_once
        [("alaska", disabledAlaska, .raised),
         ("arizona", enabledArizona, .completed 0)]
      = [("alaska", true), ("arizona", true)] := by
  decide

/-- C8 (amended): a source disabled in configuration is skipped before the
stagger sleep and before its subprocess — hence before its due-check, and
with its run state and retention set untouched: its report entry is
independent of whatever its scraper would have done.  But that entry is
`True`, the same status a successful run reports — not a distinct
`Disabled` status. -/
theorem disabled_source_skipped (cfgS : StateScraperConfig) :
    (cfgS.enabled = false →
      ∀ o1 o2 : SubprocessOutcome,
        MultiStateScheduler.run_state_scraper cfgS o1 = true ∧
        MultiStateScheduler.run_state_scraper cfgS o1
          = MultiStateScheduler.run_state_scraper cfgS o2) ∧
    (cfgS.enabled = true →
      MultiStateScheduler.run_state_scraper cfgS (.completed 0) = true) := by
  constructor
  · intro hdis o1 o2
    simp [MultiStateScheduler.run_state_scraper, hdis]
  · intro hen
    simp [MultiStateScheduler.run_state_scraper, hen]

theorem disabled_source_skipped_witness :
    MultiStateScheduler.run_state_scraper disabledAlaska .timedOut = true ∧
    MultiStateScheduler.run_state_scraper disabledAlaska .timedOut
      = MultiStateScheduler.run_state_scraper disabledAlaska .raised ∧
    MultiStateScheduler.run_state_scraper enabledArizona (.completed 0)
      = true :=
  ⟨((disabled_source_skipped disabledAlaska).1 rfl .timedOut .raised).1,
   ((disabled_source_skipped disabledAlaska).1 rfl .timedOut .raised).2,
   (disabled_source_skipped enabledArizona).2 rfl⟩
